import Mathlib

/-!
Verification development for the M3U playlist TUI (`src/index.ts`).

The program's core logic is embedded shallowly:
* `parseM3U` models `parseM3U(text)` (line splitting on `\r?\n`, marker-line
  detection, attribute extraction, name extraction, URL scan);
* `computeGroups` models `computeGroups()` (parametric in the string
  comparator, since the source sorts with the locale-dependent
  `a.localeCompare(b)`);
* `AppState` together with `applyFilter`, `loadPlaylist`, `onTab`,
  `onShiftTab` models the mutable module state
  (`all`, `filtered`, `groups`, `groupIdx`, the search box value, the
  footer text, the list selection) and its event handlers.

JS strings are modelled as Lean `String` / `List Char`; the JS helpers
`trim`, `toLowerCase`, `split(',')`, `includes` and the `||` falsiness
idiom are reimplemented character by character below so that every
definition is executable and provable by structural induction.
-/

/-- JS `String.prototype.trim()` on a character list: drop whitespace from
both ends. -/
def trimChars (l : List Char) : List Char :=
  ((l.dropWhile Char.isWhitespace).reverse.dropWhile Char.isWhitespace).reverse

/-- Prefix test: `isPrefixB p l` is `true` iff `p` is a prefix of `l`
(JS `l.startsWith(p)`). -/
def isPrefixB : List Char → List Char → Bool
  | [], _ => true
  | _ :: _, [] => false
  | a :: as, b :: bs => a = b && isPrefixB as bs

/-- Substring test: `containsSub needle hay` is `true` iff `needle` occurs contiguously in
`hay` (JS `hay.includes(needle)`). -/
def containsSub (needle : List Char) : List Char → Bool
  | [] => isPrefixB needle []
  | b :: bs => isPrefixB needle (b :: bs) || containsSub needle bs

/-- JS `line.split(',')`: split a character list at every comma; always
returns at least one (possibly empty) segment. -/
def splitComma : List Char → List (List Char)
  | [] => [[]]
  | c :: cs =>
    match splitComma cs with
    | [] => [[c]]
    | s :: ss => if c = ',' then [] :: s :: ss else (c :: s) :: ss

/-- Split a character list at every newline character
(first half of the JS `text.split(/\r?\n/)`). -/
def splitNl : List Char → List (List Char)
  | [] => [[]]
  | c :: cs =>
    match splitNl cs with
    | [] => [[c]]
    | s :: ss => if c = '\n' then [] :: s :: ss else (c :: s) :: ss

/-- Drop a single carriage return at the end of a line (second half of the
JS `text.split(/\r?\n/)`: the regex consumes `\r` only right before `\n`). -/
def stripCR (l : List Char) : List Char :=
  if l.getLast? = some '\r' then l.dropLast else l

/-- The character class of the attribute-key regex `[a-zA-Z0-9_-]`. -/
def keyChar (c : Char) : Bool :=
  (('a' ≤ c && c ≤ 'z') || ('A' ≤ c && c ≤ 'Z') || ('0' ≤ c && c ≤ '9')
    || c = '_' || c = '-')

/-- Scanner state for the attribute-extraction pass, mirroring how the
global regex `([a-zA-Z0-9_-]+?)="([^"]*)"` advances through the line:
either between matches (`seek`), inside a candidate key run (`key`, the
accumulated characters reversed), just past `key=` (`sawEq`), or inside a
quoted value (`val`). -/
inductive ScanMode where
  | seek : ScanMode
  | key : List Char → ScanMode
  | sawEq : List Char → ScanMode
  | val : List Char → List Char → ScanMode

/-- One left-to-right pass implementing the repeated
`attrRegex.exec(line)` loop of the source.  The lazy `+?` on the key is
irrelevant because the key class excludes `=`: a match of the regex is
exactly a maximal run of key characters immediately followed by `="`,
then the text up to the next quote.  The scan resumes after the closing
quote, which is what `exec` with a global regex does via `lastIndex`. -/
def scanAttrsAux : ScanMode → List Char → List (String × String)
  | _, [] => []
  | .seek, c :: cs =>
    if keyChar c then scanAttrsAux (.key [c]) cs else scanAttrsAux .seek cs
  | .key ks, c :: cs =>
    if keyChar c then scanAttrsAux (.key (c :: ks)) cs
    else if c = '=' then scanAttrsAux (.sawEq ks) cs
    else scanAttrsAux .seek cs
  | .sawEq ks, c :: cs =>
    if c = '"' then scanAttrsAux (.val ks []) cs
    else if keyChar c then scanAttrsAux (.key [c]) cs
    else scanAttrsAux .seek cs
  | .val ks vs, c :: cs =>
    if c = '"' then
      (String.mk ks.reverse, String.mk vs.reverse) :: scanAttrsAux .seek cs
    else scanAttrsAux (.val ks (c :: vs)) cs

/-- The attribute occurrence list of a marker line, in match order
(the source stores the matches into the JS object `attrs` in this order). -/
def extractAttrs (l : List Char) : List (String × String) :=
  scanAttrsAux .seek l

/-- Reading `attrs[k]` from the JS object built by
`attrs[match[1]] = match[2]` executed once per occurrence: the last
assignment to a key wins. -/
def lookupAttr (attrs : List (String × String)) (k : String) : Option String :=
  attrs.foldl (fun acc p => if p.1 = k then some p.2 else acc) none

/-- JS truthiness on an optional string: `undefined` and `""` are falsy. -/
def truthy : Option String → Option String
  | some v => if v = "" then none else some v
  | none => none

/-- JS `a || b` on optional strings (as in
`attrs['group-title'] || attrs['group'] || undefined`). -/
def jsOr (a b : Option String) : Option String :=
  match truthy a with
  | some v => some v
  | none => truthy b

/-- JS `s.trim()` on a `String`. -/
def jsTrim (s : String) : String := String.mk (trimChars s.data)

/-- JS `s.toLowerCase()` on a `String` (character-wise lowercasing). -/
def jsLower (s : String) : String := String.mk (s.data.map Char.toLower)

/-- JS `hay.includes (q)` on `String`s. -/
def strIncludes (hay q : String) : Bool := containsSub q.data hay.data

/-- The `Channel` record of the source. `attrs` keeps the occurrence list
of regex matches; reads go through `lookupAttr` (last occurrence wins),
matching the JS object semantics. -/
structure Channel where
  name : String
  url : String
  group : Option String
  logo : Option String
  attrs : List (String × String)
deriving DecidableEq

/-- The marker prefix `"#EXTINF"` as characters. -/
def extinfChars : List Char := "#EXTINF".data

/-- Build the record pushed by the source once a marker line has found its
URL line: attributes from the regex scan, the name from
`(line.split(',').pop() || '').trim()`, `group` from
`attrs['group-title'] || attrs['group'] || undefined`, and `logo` from
`attrs['tvg-logo'] || undefined`.  (The source computes the attribute and
name fields when it sees the marker line and the URL afterwards; both are
pure functions of the two lines, so computing them together at emission
time is equivalent.) -/
def mkChannel (line url : List Char) : Channel :=
  let attrs := extractAttrs line
  { name := String.mk (trimChars ((splitComma line).getLastD []))
    url := String.mk url
    group := jsOr (lookupAttr attrs "group-title") (lookupAttr attrs "group")
    logo := truthy (lookupAttr attrs "tvg-logo")
    attrs := attrs }

/-- The main loop of `parseM3U` over the split lines.  `pending = some m`
means a marker line `m` has been seen and the inner `while` is scanning
for its URL: non-empty lines not starting with `#` become the URL; all
other lines (blank lines, comments, and further `#EXTINF` lines alike) are
consumed and skipped, exactly as the source's `++i` scan does.  A pending
marker at end of input emits nothing (`if (!url) continue`). -/
def parseLinesAux : Option (List Char) → List (List Char) → List Channel
  | _, [] => []
  | none, l :: ls =>
    let line := trimChars l
    if line.isEmpty || !isPrefixB extinfChars line then parseLinesAux none ls
    else parseLinesAux (some line) ls
  | some m, l :: ls =>
    let line := trimChars l
    if !line.isEmpty && !isPrefixB ['#'] line then
      mkChannel m line :: parseLinesAux none ls
    else parseLinesAux (some m) ls

/-- The model of `parseM3U(text)`: split on `\r?\n` and run the scan loop. -/
def parseM3U (text : String) : List Channel :=
  parseLinesAux none ((splitNl text.data).map stripCR)

/-- Helper for first-occurrence deduplication: `seen` holds the values
already emitted. -/
def uniqueFirstAux (seen : List String) : List String → List String
  | [] => []
  | x :: xs =>
    if x ∈ seen then uniqueFirstAux seen xs
    else x :: uniqueFirstAux (x :: seen) xs

/-- First-occurrence deduplication, the iteration order of the JS `Set`
built by `all.forEach(c => c.group && set.add(c.group))`. -/
def uniqueFirst (l : List String) : List String := uniqueFirstAux [] l

/-- The ordering relation induced by a boolean string comparator
(`le a b` stands for `a.localeCompare(b) <= 0`). -/
def localeRel (le : String → String → Bool) : String → String → Prop :=
  fun a b => le a b = true

instance (le : String → String → Bool) : DecidableRel (localeRel le) :=
  fun a b => inferInstanceAs (Decidable (le a b = true))

/-- The model of `computeGroups()`: the groups of the loaded channels,
deduplicated and sorted, behind the sentinel `"All"`.  The source
collects them with `all.forEach(c => c.group && set.add(c.group))`: the
`&&` short-circuits on a falsy group, so both an absent group and an
empty-string group are excluded — modelled by `truthy c.group`.  The
source sorts with `(a, b) => a.localeCompare(b)`, a locale-dependent
total preorder; the model takes the comparator `le` as a parameter and
sorts with a (stable, executable) insertion sort. -/
def computeGroups (le : String → String → Bool) (all : List Channel) :
    List String :=
  "All" ::
    List.insertionSort (localeRel le)
      (uniqueFirst (all.filterMap (fun c => truthy c.group)))


/-- The mutable module-level state of the source:
`all`, `filtered`, `groups`, `groupIdx`, the search textbox value
(`search.getValue()`), the footer content set by `status(...)`, and the
channel list's selection index (`list.select(0)` sets it to `0`). -/
structure AppState where
  all : List Channel
  filtered : List Channel
  groups : List String
  groupIdx : Nat
  query : String
  footer : String
  selected : Nat
deriving DecidableEq

/-- The display text an entry is matched against:
`` `${c.name} ${c.group || ''}`.toLowerCase() ``. -/
def fmtText (c : Channel) : String :=
  jsLower (c.name ++ " " ++ c.group.getD "")

/-- The filter predicate inside `all.filter(c => ...)` of `applyFilter`,
for an already trimmed-and-lowercased query `q` and active group label
`g`:
`(g === 'All' || c.group?.toLowerCase() === g.toLowerCase()) &&
 (q === '' || text.includes(q))`. -/
def matchesFilter (g q : String) (c : Channel) : Bool :=
  (g == "All" ||
      (match c.group with
        | some gr => jsLower gr == jsLower g
        | none => false)) &&
    (q == "" || strIncludes (fmtText c) q)

/-- The visible list computed by `applyFilter` from a catalog, the raw
search box value `q` and the active group label `g`:
the query is trimmed and lowercased first
(`const q = (search.getValue() || '').trim().toLowerCase()`). -/
def codeVisible (all : List Channel) (q g : String) : List Channel :=
  all.filter (matchesFilter g (jsLower (jsTrim q)))

/-- The expression `groups[groupIdx] || 'All'`: out-of-range indices give `undefined`
and an empty label is falsy; both fall back to `"All"`. -/
def activeGroup (s : AppState) : String :=
  match s.groups.get? s.groupIdx with
  | some v => if v = "" then "All" else v
  | none => "All"

/-- The model of `applyFilter()`: recompute `filtered` from the current state and reset
the selection to `0` (`list.select(0)`). -/
def applyFilter (s : AppState) : AppState :=
  { s with filtered := codeVisible s.all s.query (activeGroup s)
           selected := 0 }

/-- The `status(msg)` wrapper used in the error paths:
`` `{red-fg}${msg}{/red-fg}` ``. -/
def redWrap (m : String) : String :=
  "\x7bred-fg\x7d" ++ m ++ "\x7b/red-fg\x7d"

/-- The success status line:
`` `Loaded ${all.length} channels. Groups: ${groups.length - 1}.` ``. -/
def loadedMsg (n g : Nat) : String :=
  "Loaded " ++ toString n ++ " channels. Groups: " ++ toString (g - 1) ++ "."

/-- The model of `loadPlaylist()`, with the network fetch supplied as an
`Except String String` (the `fetchText` collaborator either throws or
returns the playlist text).  On a fetch error the `catch` only writes the
status line.  On success the source assigns `all = parseM3U(text)`
*before* checking for zero channels, so the zero-entry error path has
already replaced the catalog; the other derived state is untouched there.
Otherwise it recomputes the groups, writes the success status and
reapplies the filter. -/
def loadPlaylist (le : String → String → Bool) (s : AppState)
    (fetched : Except String String) : AppState :=
  match fetched with
  | .error e => { s with footer := redWrap e }
  | .ok text =>
    let allNew := parseM3U text
    if allNew.length = 0 then
      { s with all := allNew
               footer := redWrap "No channels found in playlist." }
    else
      let gs := computeGroups le allNew
      applyFilter { s with all := allNew, groups := gs,
                           footer := loadedMsg allNew.length gs.length }

/-- The `tab` handler:
`groupIdx = (groupIdx + 1) % groups.length; applyFilter()`. -/
def onTab (s : AppState) : AppState :=
  applyFilter { s with groupIdx := (s.groupIdx + 1) % s.groups.length }

/-- The `S-tab` handler:
`groupIdx = (groupIdx - 1 + groups.length) % groups.length; applyFilter()`
(written with the addition first so the subtraction never underflows on
`Nat`; for `groupIdx ≥ 0` and a non-empty group list this is the same
integer as in the source). -/
def onShiftTab (s : AppState) : AppState :=
  applyFilter { s with groupIdx := (s.groupIdx + s.groups.length - 1) % s.groups.length }

/-- A concrete total comparator used to instantiate the locale-dependent
`localeCompare` in witnesses and counterexamples: lexicographic
comparison of the character lists. -/
def charListLe : List Char → List Char → Bool
  | [], _ => true
  | _ :: _, [] => false
  | a :: as, b :: bs => if a = b then charListLe as bs else decide (a < b)

/-- Lexicographic string comparator (a concrete stand-in for
`(a, b) => a.localeCompare(b) <= 0`). -/
def strLe (a b : String) : Bool := charListLe a.data b.data

/-! ### Definitions taken from the specification's wording

These are *not* translations of the source; they transcribe the claims
under scrutiny, to be compared with the source-derived definitions
above. -/

/-- The filter predicate exactly as the claim words it: the raw query is
used as-is — empty test and substring test on the *untrimmed* query. -/
def claimPredC5 (g q : String) (c : Channel) : Bool :=
  (g == "All" ||
      (match c.group with
        | some gr => jsLower gr == jsLower g
        | none => false)) &&
    (q == "" || strIncludes (fmtText c) (jsLower q))

/-- The filter predicate amended to match the source: the query is
trimmed of surrounding whitespace before both the emptiness test and the
case-insensitive substring test. -/
def amendedPredC5 (g q : String) (c : Channel) : Bool :=
  (g == "All" ||
      (match c.group with
        | some gr => jsLower gr == jsLower g
        | none => false)) &&
    (jsTrim q == "" || strIncludes (fmtText c) (jsLower (jsTrim q)))

/-- The group-resolution rule exactly as the claim words it: attribute
`group-title` when *present*, else attribute `group` when present, else
absent — presence alone decides, even for an empty value. -/
def claimGroupRule (attrs : List (String × String)) : Option String :=
  match lookupAttr attrs "group-title" with
  | some v => some v
  | none => lookupAttr attrs "group"

/-- The group-resolution rule amended to match the source's `||`
falsiness: `group-title` when present *with a non-empty value*, else
`group` when present with a non-empty value, else absent. -/
def amendedGroupRule (attrs : List (String × String)) : Option String :=
  match lookupAttr attrs "group-title" with
  | some v =>
    if v = "" then
      match lookupAttr attrs "group" with
      | some w => if w = "" then none else some w
      | none => none
    else some v
  | none =>
    match lookupAttr attrs "group" with
    | some w => if w = "" then none else some w
    | none => none

/-! ### Rendering of well-formed attribute lists (for the attribute
extraction claim) -/

/-- Render a list of `key="value"` pairs, each preceded by a space, the
shape of a well-formed `#EXTINF` attribute section. -/
def renderPairs (ps : List (String × String)) : List Char :=
  ps.foldr (fun p acc => ' ' :: (p.1.data ++ '=' :: '"' :: (p.2.data ++ '"' :: acc))) []

/-- A full marker line carrying the given attribute pairs. -/
def renderLine (ps : List (String × String)) : List Char :=
  "#EXTINF:-1".data ++ (renderPairs ps ++ ",Name".data)

/-! ### Concrete fixtures used by counterexamples and witnesses -/

/-- The record Example 1 parses for `ACME News`. -/
def chanNews : Channel :=
  { name := "ACME News", url := "http://x/1", group := some "News",
    logo := none, attrs := [("group-title", "News")] }

/-- The record Example 1 parses for `Jazz FM`. -/
def chanJazz : Channel :=
  { name := "Jazz FM", url := "http://x/2", group := none,
    logo := none, attrs := [] }

/-- Example 1's playlist text. -/
def ex1Text : String :=
  "#EXTINF:-1 group-title=\"News\",ACME News\nhttp://x/1\n#EXTINF:-1,Jazz FM\nhttp://x/2"

/-- Example 1's catalog, as parsed. -/
def ex1Cat : List Channel := parseM3U ex1Text

/-- A pre-reload state: catalog `[chanNews]`, groups `["All", "News"]`,
active group index `1` (label `"News"`), a pending query `"x"`. -/
def stateBefore : AppState :=
  { all := [chanNews], filtered := [chanNews], groups := ["All", "News"],
    groupIdx := 1, query := "x", footer := "", selected := 0 }

/-- A reload text whose groups are `Music` and `News`: after reloading,
index `1` points at `"Music"` even though `"News"` still exists. -/
def textReload : String :=
  "#EXTINF:-1 group-title=\"Music\",M\nhttp://u1\n#EXTINF:-1 group-title=\"News\",N\nhttp://u2"

/-- A marker line whose `group-title` attribute is present but empty. -/
def textEmptyGroupTitle : String :=
  "#EXTINF:-1 group-title=\"\" group=\"Music\",X\nhttp://u"

/-- The record `textEmptyGroupTitle` parses to. -/
def chanEmptyGroupTitle : Channel :=
  { name := "X", url := "http://u", group := some "Music", logo := none,
    attrs := [("group-title", ""), ("group", "Music")] }

/-- A state used to exercise the tab handlers. -/
def stateTabs : AppState :=
  { all := [chanNews, chanJazz], filtered := [chanNews, chanJazz],
    groups := ["All", "B", "C"], groupIdx := 0, query := "", footer := "",
    selected := 0 }

/-- An attribute list with a duplicate key and an empty value, used to
witness the attribute-extraction theorem. -/
def attrPairsFixture : List (String × String) :=
  [("a", "1"), ("b", ""), ("a", "2")]

/-- A state whose group index is beyond the current group list. -/
def stateStaleIdx : AppState :=
  { all := [chanNews, chanJazz], filtered := [], groups := ["All", "News"],
    groupIdx := 7, query := "", footer := "", selected := 0 }

/-! ## Helper lemmas -/

theorem applyFilter_filtered (s : AppState) :
    (applyFilter s).filtered = codeVisible s.all s.query (activeGroup s) := rfl

theorem onTab_groupIdx (s : AppState) :
    (onTab s).groupIdx = (s.groupIdx + 1) % s.groups.length := rfl

theorem onTab_groups (s : AppState) : (onTab s).groups = s.groups := rfl

theorem onShiftTab_groupIdx (s : AppState) :
    (onShiftTab s).groupIdx =
      (s.groupIdx + s.groups.length - 1) % s.groups.length := rfl

theorem onTab_iterate_groupIdx (k : Nat) : ∀ s : AppState,
    (onTab^[k + 1] s).groupIdx = (s.groupIdx + (k + 1)) % s.groups.length := by
  induction k with
  | zero => intro s; rw [Function.iterate_one, onTab_groupIdx]
  | succ n ih =>
    intro s
    rw [Function.iterate_succ_apply, ih (onTab s), onTab_groupIdx,
      onTab_groups, Nat.mod_add_mod]
    congr 1
    omega

/-! ## Claim C9 — group cycling is modular arithmetic -/

/-- Claim C9, confirmed: the `tab` handler advances the group index to
`(groupIdx + 1) % len`, the `S-tab` handler to
`(groupIdx - 1 + len) % len`; cycling forward `len` times from any
in-range active index returns to it, and cycling backward once from
index `0` on a group list of length 3 yields index `2`. -/
theorem groupCycling_modular (s t : AppState)
    (hs : s.groupIdx < s.groups.length)
    (ht3 : t.groups.length = 3) (ht0 : t.groupIdx = 0) :
    (onTab s).groupIdx = (s.groupIdx + 1) % s.groups.length ∧
    (onShiftTab s).groupIdx =
      (s.groupIdx + s.groups.length - 1) % s.groups.length ∧
    (onTab^[s.groups.length] s).groupIdx = s.groupIdx ∧
    (onShiftTab t).groupIdx = 2 := by
  refine ⟨rfl, rfl, ?_, ?_⟩
  · obtain ⟨m, hm⟩ : ∃ m, s.groups.length = m + 1 :=
      ⟨s.groups.length - 1, by omega⟩
    rw [hm, onTab_iterate_groupIdx m s, hm, Nat.add_mod_right,
      Nat.mod_eq_of_lt (by omega)]
  · rw [onShiftTab_groupIdx, ht3, ht0]

/-- Witness for C9 at a concrete state. -/
theorem groupCycling_modular_witness :
    (stateTabs.groupIdx < stateTabs.groups.length ∧
      stateTabs.groups.length = 3 ∧ stateTabs.groupIdx = 0) ∧
    ((onTab stateTabs).groupIdx = (stateTabs.groupIdx + 1) % stateTabs.groups.length ∧
      (onShiftTab stateTabs).groupIdx =
        (stateTabs.groupIdx + stateTabs.groups.length - 1) % stateTabs.groups.length ∧
      (onTab^[stateTabs.groups.length] stateTabs).groupIdx = stateTabs.groupIdx ∧
      (onShiftTab stateTabs).groupIdx = 2) :=
  ⟨by decide,
    groupCycling_modular stateTabs stateTabs (by decide) (by decide) (by decide)⟩

/-! ## Claim C10 — stale group index falls back to "All" -/

/-- Claim C10, confirmed: `applyFilter` is total in the group index: when `groupIdx`
is out of range of the current group list, the active group resolves to
the sentinel `"All"` and the visible set is the one computed for
`"All"` (query filtering only). -/
theorem staleGroupIdx_fallsBackToAll (s : AppState)
    (h : s.groups.length ≤ s.groupIdx) :
    activeGroup s = "All" ∧
    (applyFilter s).filtered = codeVisible s.all s.query "All" := by
  have hg : activeGroup s = "All" := by
    unfold activeGroup
    rw [List.get?_eq_none.2 h]
  exact ⟨hg, by rw [applyFilter_filtered, hg]⟩

/-- Witness for C10 at a concrete state. -/
theorem staleGroupIdx_fallsBackToAll_witness :
    stateStaleIdx.groups.length ≤ stateStaleIdx.groupIdx ∧
    (activeGroup stateStaleIdx = "All" ∧
      (applyFilter stateStaleIdx).filtered =
        codeVisible stateStaleIdx.all stateStaleIdx.query "All") :=
  ⟨by decide, staleGroupIdx_fallsBackToAll stateStaleIdx (by decide)⟩

/-! ## Claim C1 — what a successful reload preserves -/

/-- Claim C1, counterexample: reloading from `stateBefore` (active label
`"News"`, query `"x"`) with `textReload`: `"News"` still exists in the
new group list, yet the active label becomes `"Music"` (the index, not
the label, is preserved) and the query is not reset to the empty
string.  This refutes the claim as stated. -/
theorem reload_claim_counterexample :
    "News" ∈ (loadPlaylist strLe stateBefore (Except.ok textReload)).groups ∧
    activeGroup stateBefore = "News" ∧
    ¬(activeGroup (loadPlaylist strLe stateBefore (Except.ok textReload)) = "News" ∧
        (loadPlaylist strLe stateBefore (Except.ok textReload)).query = "") := by
  decide

/-- Claim C1, amended: a successful reload replaces the catalog and the
group list, preserves the numeric group index and the query text
unchanged, and resets the selection to `0`. -/
theorem reload_preservesIndexAndQuery (le : String → String → Bool)
    (s : AppState) (text : String) (h : parseM3U text ≠ []) :
    (loadPlaylist le s (Except.ok text)).groupIdx = s.groupIdx ∧
    (loadPlaylist le s (Except.ok text)).query = s.query ∧
    (loadPlaylist le s (Except.ok text)).selected = 0 ∧
    (loadPlaylist le s (Except.ok text)).all = parseM3U text ∧
    (loadPlaylist le s (Except.ok text)).groups =
      computeGroups le (parseM3U text) := by
  have hlen : ¬(parseM3U text).length = 0 := by
    simpa [List.length_eq_zero] using h
  simp [loadPlaylist, applyFilter, hlen]

/-- Witness for the amended C1 at a concrete reload. -/
theorem reload_preservesIndexAndQuery_witness :
    parseM3U textReload ≠ [] ∧
    ((loadPlaylist strLe stateBefore (Except.ok textReload)).groupIdx =
        stateBefore.groupIdx ∧
      (loadPlaylist strLe stateBefore (Except.ok textReload)).query =
        stateBefore.query ∧
      (loadPlaylist strLe stateBefore (Except.ok textReload)).selected = 0 ∧
      (loadPlaylist strLe stateBefore (Except.ok textReload)).all =
        parseM3U textReload ∧
      (loadPlaylist strLe stateBefore (Except.ok textReload)).groups =
        computeGroups strLe (parseM3U textReload)) :=
  ⟨by decide,
    reload_preservesIndexAndQuery strLe stateBefore textReload (by decide)⟩

/-! ## Claim C2 — failed reload and the previous catalog -/

/-- Claim C2, code bug: behaviour of `loadPlaylist` on the two failure paths, at a
concrete previous state.  A fetch failure leaves the whole state (except
the status line) untouched.  But when the fetched text parses to zero
entries, `all = parseM3U(text)` has already replaced the catalog by the
empty list before the zero-entry check throws, so the previous catalog
does *not* remain: only the stale derived view (`filtered`, `groups`,
indices) survives until the next recomputation empties it. -/
theorem reloadZeroEntries_clobbersCatalog :
    stateBefore.all = [chanNews] ∧
    (loadPlaylist strLe stateBefore (Except.ok "")).all = [] ∧
    (loadPlaylist strLe stateBefore (Except.ok "")).footer =
      redWrap "No channels found in playlist." ∧
    (loadPlaylist strLe stateBefore (Except.ok "")).filtered =
      stateBefore.filtered ∧
    (loadPlaylist strLe stateBefore (Except.ok "")).groups =
      stateBefore.groups ∧
    (applyFilter (loadPlaylist strLe stateBefore (Except.ok ""))).filtered = [] ∧
    (loadPlaylist strLe stateBefore (Except.error "network down")).all =
      stateBefore.all ∧
    (loadPlaylist strLe stateBefore (Except.error "network down")).filtered =
      stateBefore.filtered ∧
    (loadPlaylist strLe stateBefore (Except.error "network down")).footer =
      redWrap "network down" := by
  decide

/-! ## Parser structure lemmas -/

theorem string_mk_ne_empty {l : List Char} (h : l ≠ []) : String.mk l ≠ "" := by
  intro h0
  exact h (congrArg String.data h0)

theorem jsOr_eq_amendedGroupRule (attrs : List (String × String)) :
    jsOr (lookupAttr attrs "group-title") (lookupAttr attrs "group") =
      amendedGroupRule attrs := by
  unfold jsOr truthy amendedGroupRule
  cases lookupAttr attrs "group-title" with
  | none =>
    cases lookupAttr attrs "group" with
    | none => rfl
    | some w => by_cases hw : w = "" <;> simp [hw]
  | some v =>
    by_cases hv : v = ""
    · cases lookupAttr attrs "group" with
      | none => simp [hv]
      | some w => by_cases hw : w = "" <;> simp [hv, hw]
    · simp [hv]

/-- Every record produced by the scan loop has a non-empty URL, and its
`group` and `logo` fields are resolved from its own attribute list by the
JS `||` chains of the source. -/
theorem mem_parseLinesAux {c : Channel} :
    ∀ (p : Option (List Char)) (ls : List (List Char)),
      c ∈ parseLinesAux p ls →
      c.url ≠ "" ∧
      c.group = jsOr (lookupAttr c.attrs "group-title")
        (lookupAttr c.attrs "group") ∧
      c.logo = truthy (lookupAttr c.attrs "tvg-logo") := by
  intro p ls
  induction ls generalizing p with
  | nil => intro hc; simp [parseLinesAux] at hc
  | cons l ls ih =>
    intro hc
    cases p with
    | none =>
      rw [parseLinesAux] at hc
      split at hc
      · exact ih none hc
      · exact ih _ hc
    | some m =>
      rw [parseLinesAux] at hc
      split at hc
      · rcases List.mem_cons.1 hc with rfl | hc2
        · rename_i hguard
          refine ⟨?_, rfl, rfl⟩
          have hne : trimChars l ≠ [] := by
            intro h0
            rw [h0] at hguard
            simp at hguard
          exact string_mk_ne_empty hne
        · exact ih none hc2
      · exact ih _ hc

/-- A pending marker whose remaining lines are all blank or
`#`-initial (after trimming) produces no record, and nothing after it
does either: the URL scan consumes every one of those lines. -/
theorem parseLinesAux_no_url (m : List Char) :
    ∀ ls : List (List Char),
      (∀ l ∈ ls, trimChars l = [] ∨ isPrefixB ['#'] (trimChars l) = true) →
      parseLinesAux (some m) ls = [] := by
  intro ls
  induction ls with
  | nil => intro _; rfl
  | cons l ls ih =>
    intro h
    have hl := h l (List.mem_cons_self l ls)
    rw [parseLinesAux]
    have hguard : (!(trimChars l).isEmpty && !isPrefixB ['#'] (trimChars l)) = false := by
      rcases hl with h0 | h0 <;> simp [h0]
    rw [hguard]
    simp only [Bool.false_eq_true, if_false]
    exact ih fun x hx => h x (List.mem_cons_of_mem l hx)

/-! ## Claim C4 — every record has a URL; dangling markers emit nothing -/

/-- Claim C4, confirmed: every `ChannelRecord` emitted by the parser has a non-empty
`url`; a marker line followed only by blank or `#`-initial lines up to
the end of input produces no record at all (Example 2 instantiates this
with a trailing comment line). -/
theorem parse_url_nonempty (text : String) (c : Channel)
    (hc : c ∈ parseM3U text) :
    c.url ≠ "" ∧
    (∀ (m : List Char) (ls : List (List Char)),
      (∀ l ∈ ls, trimChars l = [] ∨ isPrefixB ['#'] (trimChars l) = true) →
      parseLinesAux (some m) ls = []) ∧
    parseM3U "#EXTINF:-1,Foo\n# comment" = [] := by
  refine ⟨(mem_parseLinesAux none _ hc).1, parseLinesAux_no_url, by decide⟩

/-- Witness for C4 at Example 1's first record. -/
theorem parse_url_nonempty_witness :
    chanNews ∈ parseM3U ex1Text ∧
    (chanNews.url ≠ "" ∧
      (∀ (m : List Char) (ls : List (List Char)),
        (∀ l ∈ ls, trimChars l = [] ∨ isPrefixB ['#'] (trimChars l) = true) →
        parseLinesAux (some m) ls = []) ∧
      parseM3U "#EXTINF:-1,Foo\n# comment" = []) :=
  ⟨by decide, parse_url_nonempty ex1Text chanNews (by decide)⟩

/-! ## Claim C8 — group resolution from attributes -/

/-- Claim C8, counterexample: on a marker line with `group-title=""` and
`group="Music"`, the attribute `group-title` is *present* (with the empty
value), so the claim demands `group = ""`; the source's
`attrs['group-title'] || attrs['group']` treats the empty string as falsy
and yields `"Music"` instead. -/
theorem groupRule_claim_counterexample :
    (parseM3U textEmptyGroupTitle).head? = some chanEmptyGroupTitle ∧
    lookupAttr chanEmptyGroupTitle.attrs "group-title" = some "" ∧
    claimGroupRule chanEmptyGroupTitle.attrs = some "" ∧
    chanEmptyGroupTitle.group = some "Music" ∧
    chanEmptyGroupTitle.group ≠ claimGroupRule chanEmptyGroupTitle.attrs := by
  decide

/-- Claim C8, amended: every emitted record's `group` equals the value of
attribute `group-title` when that attribute is present *with a non-empty
value*, otherwise the value of attribute `group` when present with a
non-empty value, otherwise the group is absent. -/
theorem groupRule_amended (text : String) (c : Channel)
    (hc : c ∈ parseM3U text) :
    c.group = amendedGroupRule c.attrs := by
  rw [(mem_parseLinesAux none _ hc).2.1]
  exact jsOr_eq_amendedGroupRule c.attrs

/-- Witness for the amended C8 at a concrete record. -/
theorem groupRule_amended_witness :
    chanEmptyGroupTitle ∈ parseM3U textEmptyGroupTitle ∧
    chanEmptyGroupTitle.group = amendedGroupRule chanEmptyGroupTitle.attrs :=
  ⟨by decide, groupRule_amended textEmptyGroupTitle chanEmptyGroupTitle (by decide)⟩

/-! ## Claim C5 — the visible-set predicate -/

theorem jsLower_eq_empty_iff (s : String) : jsLower s = "" ↔ s = "" := by
  constructor
  · intro h
    have hd : s.data.map Char.toLower = [] := congrArg String.data h
    exact congrArg String.mk (List.map_eq_nil_iff.1 hd)
  · intro h
    rw [h]
    rfl

/-- Claim C5, counterexample: with the raw query `" jazz "` (surrounding
spaces) on Example 1's catalog under group `"All"`, the code trims the
query and shows `Jazz FM`, while the claim's predicate — which matches
the untrimmed query as a substring — rejects every entry, so the visible
set is not the set the claim describes. -/
theorem visibleSet_claim_counterexample :
    codeVisible ex1Cat " jazz " "All" = [chanJazz] ∧
    List.filter (claimPredC5 "All" " jazz ") ex1Cat = [] ∧
    codeVisible ex1Cat " jazz " "All" ≠
      List.filter (claimPredC5 "All" " jazz ") ex1Cat := by
  decide

/-- Claim C5, amended: for every catalog, raw query string and active
group, the visible set is exactly the catalog entries (in catalog order)
satisfying: the active group is `"All"` or the entry's group
case-insensitively equals it, *and* the query trimmed of surrounding
whitespace is empty or occurs case-insensitively as a substring of
`name + " " + group`.  `applyFilter` computes exactly this set, and on
Example 1's catalog the queries `"jazz"`, `"news"`, `"zzz"` under
`"All"` yield `Jazz FM` only, `ACME News` only, and nothing. -/
theorem visibleSet_is_filter :
    (∀ (all : List Channel) (q g : String),
      codeVisible all q g = all.filter (amendedPredC5 g q)) ∧
    (∀ s : AppState,
      (applyFilter s).filtered = codeVisible s.all s.query (activeGroup s)) ∧
    codeVisible ex1Cat "jazz" "All" = [chanJazz] ∧
    codeVisible ex1Cat "news" "All" = [chanNews] ∧
    codeVisible ex1Cat "zzz" "All" = [] := by
  refine ⟨?_, fun _ => rfl, by decide, by decide, by decide⟩
  intro all q g
  unfold codeVisible
  refine List.filter_congr ?_
  intro c _
  have hb : (jsLower (jsTrim q) == "") = (jsTrim q == "") := by
    by_cases h : jsTrim q = ""
    · rw [h]
      rfl
    · have h2 : jsLower (jsTrim q) ≠ "" := fun h0 => h ((jsLower_eq_empty_iff _).1 h0)
      simp [h, h2]
  unfold matchesFilter amendedPredC5
  rw [hb]

/-! ## Claim C3 — name extraction from the marker line -/

theorem splitComma_ne_nil (l : List Char) : splitComma l ≠ [] := by
  cases l with
  | nil => simp [splitComma]
  | cons c cs =>
    rw [splitComma]
    rcases h : splitComma cs with _ | ⟨s, ss⟩
    · simp
    · by_cases hc : c = ',' <;> simp [hc]

theorem splitComma_append_comma (a b : List Char) :
    ∃ pre : List (List Char),
      pre ≠ [] ∧ splitComma (a ++ ',' :: b) = pre ++ splitComma b := by
  induction a with
  | nil =>
    refine ⟨[[]], by simp, ?_⟩
    rw [List.nil_append, splitComma]
    rcases h : splitComma b with _ | ⟨s, ss⟩
    · exact absurd h (splitComma_ne_nil b)
    · simp
  | cons c a ih =>
    obtain ⟨pre, hne, hpre⟩ := ih
    rcases pre with _ | ⟨p0, pre2⟩
    · exact absurd rfl hne
    · rw [List.cons_append, splitComma, hpre]
      by_cases hc : c = ','
      · exact ⟨[] :: p0 :: pre2, by simp, by simp [hc]⟩
      · exact ⟨(c :: p0) :: pre2, by simp, by simp [hc]⟩

theorem splitComma_no_comma (l : List Char) (h : ',' ∉ l) :
    splitComma l = [l] := by
  induction l with
  | nil => rfl
  | cons c cs ih =>
    have hc : ¬c = ',' := fun h0 => h (h0 ▸ List.mem_cons_self c cs)
    have hcs : ',' ∉ cs := fun h0 => h (List.mem_cons_of_mem c h0)
    rw [splitComma, ih hcs]
    simp [hc]

theorem getLastD_append_of_ne_nil {α : Type} (xs ys : List α) (d : α)
    (h : ys ≠ []) : (xs ++ ys).getLastD d = ys.getLastD d := by
  rcases h2 : ys.getLast? with _ | y
  · exact absurd (List.getLast?_eq_none_iff.1 h2) h
  · rw [List.getLastD_eq_getLast?, List.getLastD_eq_getLast?,
      List.getLast?_append, h2]
    rfl

theorem getLastD_splitComma_comma (a b : List Char) :
    (splitComma (a ++ ',' :: b)).getLastD [] = (splitComma b).getLastD [] := by
  obtain ⟨pre, _, hpre⟩ := splitComma_append_comma a b
  rw [hpre]
  exact getLastD_append_of_ne_nil pre (splitComma b) [] (splitComma_ne_nil b)

theorem isPrefixB_append_self (p r : List Char) :
    isPrefixB p (p ++ r) = true := by
  induction p with
  | nil => rfl
  | cons c cs ih => simpa [isPrefixB] using ih

/-- Claim C3, counterexample: a marker line with no comma: the source's
`line.split(',').pop()` returns the whole line, so the record's name is
the entire trimmed marker line, not the empty string the claim
demands. -/
theorem nameNoComma_claim_counterexample :
    (parseM3U "#EXTINF:-1\nhttp://x").map Channel.name = ["#EXTINF:-1"] ∧
    ("#EXTINF:-1" : String) ≠ "" := by
  decide

theorem parseLinesAux_marker_step (l : List Char) (ls : List (List Char))
    (h1 : (trimChars l).isEmpty = false)
    (h2 : isPrefixB extinfChars (trimChars l) = true) :
    parseLinesAux none (l :: ls) = parseLinesAux (some (trimChars l)) ls := by
  rw [parseLinesAux]
  rw [h1, h2]
  rfl

theorem parseLinesAux_url_step (m l : List Char) (ls : List (List Char))
    (h : (!(trimChars l).isEmpty && !isPrefixB ['#'] (trimChars l)) = true) :
    parseLinesAux (some m) (l :: ls) =
      mkChannel m (trimChars l) :: parseLinesAux none ls := by
  rw [parseLinesAux]
  rw [h]
  rfl

/-- Claim C3, amended: for a (pre-trimmed) marker line followed by a URL
line, the record's name is the text after the *last* comma of the marker
line, trimmed of surrounding whitespace; when the marker line contains
no comma, the name is the entire marker line (not the empty string). -/
theorem nameExtraction_amended :
    (∀ (mid post l2 : List Char) (ls : List (List Char)),
      ',' ∉ post →
      trimChars ("#EXTINF".data ++ mid ++ ',' :: post) =
        "#EXTINF".data ++ mid ++ ',' :: post →
      (!(trimChars l2).isEmpty && !isPrefixB ['#'] (trimChars l2)) = true →
      ((parseLinesAux none
          (("#EXTINF".data ++ mid ++ ',' :: post) :: l2 :: ls)).head?).map
          Channel.name =
        some (String.mk (trimChars post))) ∧
    (∀ (mid l2 : List Char) (ls : List (List Char)),
      ',' ∉ mid →
      trimChars ("#EXTINF".data ++ mid) = "#EXTINF".data ++ mid →
      (!(trimChars l2).isEmpty && !isPrefixB ['#'] (trimChars l2)) = true →
      ((parseLinesAux none
          (("#EXTINF".data ++ mid) :: l2 :: ls)).head?).map Channel.name =
        some (String.mk ("#EXTINF".data ++ mid))) := by
  constructor
  · intro mid post l2 ls hpost htrim hl2
    have hemp : (trimChars ("#EXTINF".data ++ mid ++ ',' :: post)).isEmpty = false := by
      rw [htrim]
      rfl
    have hpre : isPrefixB extinfChars
        (trimChars ("#EXTINF".data ++ mid ++ ',' :: post)) = true := by
      rw [htrim, List.append_assoc]
      exact isPrefixB_append_self "#EXTINF".data (mid ++ ',' :: post)
    rw [parseLinesAux_marker_step _ _ hemp hpre, htrim,
      parseLinesAux_url_step _ _ _ hl2]
    rw [List.head?_cons]
    show some (mkChannel _ _).name = _
    congr 1
    show String.mk (trimChars
      ((splitComma ("#EXTINF".data ++ mid ++ ',' :: post)).getLastD [])) = _
    rw [getLastD_splitComma_comma, splitComma_no_comma post hpost]
    rfl
  · intro mid l2 ls hmid htrim hl2
    have hemp : (trimChars ("#EXTINF".data ++ mid)).isEmpty = false := by
      rw [htrim]
      rfl
    have hpre : isPrefixB extinfChars (trimChars ("#EXTINF".data ++ mid)) = true := by
      rw [htrim]
      exact isPrefixB_append_self "#EXTINF".data mid
    rw [parseLinesAux_marker_step _ _ hemp hpre, htrim,
      parseLinesAux_url_step _ _ _ hl2]
    rw [List.head?_cons]
    show some (mkChannel _ _).name = _
    congr 1
    have hnc : ',' ∉ "#EXTINF".data ++ mid := by
      intro h
      rcases List.mem_append.1 h with h0 | h0
      · exact absurd h0 (by decide)
      · exact hmid h0
    show String.mk (trimChars
      ((splitComma ("#EXTINF".data ++ mid)).getLastD [])) = _
    rw [splitComma_no_comma _ hnc]
    show String.mk (trimChars ("#EXTINF".data ++ mid)) = _
    rw [htrim]

/-- Witness for the amended C3 at a concrete marker line. -/
theorem nameExtraction_amended_witness :
    (',' ∉ " Foo".data ∧
      trimChars ("#EXTINF".data ++ ":-1".data ++ ',' :: " Foo".data) =
        "#EXTINF".data ++ ":-1".data ++ ',' :: " Foo".data ∧
      (!(trimChars "http://x".data).isEmpty &&
        !isPrefixB ['#'] (trimChars "http://x".data)) = true) ∧
    ((parseLinesAux none
        (("#EXTINF".data ++ ":-1".data ++ ',' :: " Foo".data) ::
          "http://x".data :: [])).head?).map Channel.name =
      some (String.mk (trimChars " Foo".data)) ∧
    ((parseLinesAux none
        (("#EXTINF".data ++ ":-1".data) :: "http://x".data :: [])).head?).map
        Channel.name =
      some (String.mk ("#EXTINF".data ++ ":-1".data)) :=
  ⟨⟨by decide, by decide, by decide⟩,
    nameExtraction_amended.1 ":-1".data " Foo".data "http://x".data []
      (by decide) (by decide) (by decide),
    nameExtraction_amended.2 ":-1".data "http://x".data []
      (by decide) (by decide) (by decide)⟩

theorem charListLe_trans : ∀ a b c : List Char,
    charListLe a b = true → charListLe b c = true → charListLe a c = true := by
  intro a
  induction a with
  | nil => intro b c _ _; rfl
  | cons x xs ih =>
    intro b c h1 h2
    cases b with
    | nil => exact absurd h1 (by simp [charListLe])
    | cons y ys =>
      cases c with
      | nil => exact absurd h2 (by simp [charListLe])
      | cons z zs =>
        rw [charListLe] at h1 h2 ⊢
        by_cases hxy : x = y
        · subst hxy
          rw [if_pos rfl] at h1
          by_cases hyz : x = z
          · subst hyz
            rw [if_pos rfl] at h2
            rw [if_pos rfl]
            exact ih ys zs h1 h2
          · rw [if_neg hyz] at h2
            rw [if_neg hyz]
            exact h2
        · rw [if_neg hxy] at h1
          have hlt1 : x < y := of_decide_eq_true h1
          by_cases hyz : y = z
          · subst hyz
            rw [if_neg hxy]
            exact h1
          · rw [if_neg hyz] at h2
            have hlt2 : y < z := of_decide_eq_true h2
            have hlt : x < z := lt_trans hlt1 hlt2
            rw [if_neg (ne_of_lt hlt)]
            exact decide_eq_true hlt

theorem charListLe_total : ∀ a b : List Char,
    charListLe a b = true ∨ charListLe b a = true := by
  intro a
  induction a with
  | nil => intro b; left; rfl
  | cons x xs ih =>
    intro b
    cases b with
    | nil => right; rfl
    | cons y ys =>
      rw [charListLe, charListLe]
      by_cases hxy : x = y
      · subst hxy
        rw [if_pos rfl, if_pos rfl]
        exact ih ys
      · rw [if_neg hxy, if_neg (Ne.symm hxy)]
        rcases lt_or_gt_of_ne hxy with h | h
        · exact Or.inl (decide_eq_true h)
        · exact Or.inr (decide_eq_true h)

theorem strLe_trans (a b c : String) :
    strLe a b = true → strLe b c = true → strLe a c = true :=
  charListLe_trans a.data b.data c.data

theorem strLe_total (a b : String) :
    strLe a b = true ∨ strLe b a = true :=
  charListLe_total a.data b.data

/-! ## Claim C6 — shape of the group list -/

theorem mem_uniqueFirstAux (x : String) : ∀ (l seen : List String),
    x ∈ uniqueFirstAux seen l ↔ x ∈ l ∧ x ∉ seen := by
  intro l
  induction l with
  | nil => intro seen; simp [uniqueFirstAux]
  | cons y ys ih =>
    intro seen
    rw [uniqueFirstAux]
    by_cases hy : y ∈ seen
    · rw [if_pos hy, ih seen]
      constructor
      · rintro ⟨h1, h2⟩
        exact ⟨List.mem_cons_of_mem _ h1, h2⟩
      · rintro ⟨h1, h2⟩
        rcases List.mem_cons.1 h1 with rfl | h1
        · exact absurd hy h2
        · exact ⟨h1, h2⟩
    · rw [if_neg hy]
      constructor
      · intro h
        rcases List.mem_cons.1 h with rfl | h
        · exact ⟨List.mem_cons_self _ _, hy⟩
        · rw [ih (y :: seen)] at h
          exact ⟨List.mem_cons_of_mem _ h.1,
            fun hs => h.2 (List.mem_cons_of_mem _ hs)⟩
      · rintro ⟨h1, h2⟩
        rcases List.mem_cons.1 h1 with rfl | h1
        · exact List.mem_cons_self _ _
        · by_cases hxy : x = y
          · subst hxy
            exact List.mem_cons_self _ _
          · refine List.mem_cons_of_mem _ ((ih (y :: seen)).2 ⟨h1, fun hs => ?_⟩)
            rcases List.mem_cons.1 hs with h3 | h3
            · exact hxy h3
            · exact h2 h3

theorem nodup_uniqueFirstAux : ∀ (l seen : List String),
    (uniqueFirstAux seen l).Nodup := by
  intro l
  induction l with
  | nil => intro seen; simp [uniqueFirstAux]
  | cons y ys ih =>
    intro seen
    rw [uniqueFirstAux]
    by_cases hy : y ∈ seen
    · rw [if_pos hy]
      exact ih seen
    · rw [if_neg hy]
      refine List.nodup_cons.2 ⟨fun hmem => ?_, ih (y :: seen)⟩
      exact ((mem_uniqueFirstAux y ys (y :: seen)).1 hmem).2
        (List.mem_cons_self y seen)

theorem truthy_eq_some_iff (o : Option String) (g : String) :
    truthy o = some g ↔ o = some g ∧ g ≠ "" := by
  cases o with
  | none => simp [truthy]
  | some v =>
    show (if v = "" then none else some v) = some g ↔ some v = some g ∧ g ≠ ""
    by_cases hv : v = ""
    · subst hv
      rw [if_pos rfl]
      constructor
      · intro h
        exact Option.noConfusion h
      · rintro ⟨h1, h2⟩
        injection h1 with h3
        exact absurd h3.symm h2
    · rw [if_neg hv]
      constructor
      · intro h
        injection h with h2
        subst h2
        exact ⟨rfl, hv⟩
      · intro h
        exact h.1

theorem truthy_ne_some_empty (o : Option String) : truthy o ≠ some "" :=
  fun h => ((truthy_eq_some_iff o "").1 h).2 rfl

theorem jsOr_ne_some_empty (a b : Option String) : jsOr a b ≠ some "" := by
  unfold jsOr
  cases h : truthy a with
  | none =>
    show truthy b ≠ some ""
    exact truthy_ne_some_empty b
  | some v =>
    show some v ≠ some ""
    intro h2
    injection h2 with h3
    subst h3
    exact truthy_ne_some_empty a h

/-- Claim C6, confirmed: after every successful load or reload (so for
the parse of any playlist text) and for every transitive, total
comparator (the contract `localeCompare` satisfies), the computed group
list starts with the sentinel `"All"`, and its remaining elements are
pairwise distinct, ascending under the comparator, and are exactly the
defined group labels of the loaded channels.  (On parsed records the
source's `c.group &&` truthiness guard excludes nothing extra, since a
parsed record's group is never the empty string.) -/
theorem computeGroups_spec (le : String → String → Bool) (text : String)
    (htrans : ∀ a b c, le a b = true → le b c = true → le a c = true)
    (htotal : ∀ a b, le a b = true ∨ le b a = true) :
    (computeGroups le (parseM3U text)).head? = some "All" ∧
    (computeGroups le (parseM3U text)).tail.Pairwise
      (fun a b => a ≠ b ∧ le a b = true) ∧
    (∀ g, g ∈ (computeGroups le (parseM3U text)).tail ↔
      ∃ c ∈ parseM3U text, c.group = some g) := by
  letI : IsTotal String (localeRel le) := ⟨fun a b => htotal a b⟩
  letI : IsTrans String (localeRel le) := ⟨fun a b c => htrans a b c⟩
  have hperm := List.perm_insertionSort (localeRel le)
    (uniqueFirst ((parseM3U text).filterMap (fun c => truthy c.group)))
  refine ⟨rfl, ?_, ?_⟩
  · have hsorted := List.sorted_insertionSort (localeRel le)
      (uniqueFirst ((parseM3U text).filterMap (fun c => truthy c.group)))
    have hnodup : (List.insertionSort (localeRel le)
        (uniqueFirst ((parseM3U text).filterMap (fun c => truthy c.group)))).Nodup :=
      hperm.symm.nodup (nodup_uniqueFirstAux _ [])
    exact hnodup.and hsorted
  · intro g
    show g ∈ List.insertionSort (localeRel le)
        (uniqueFirst ((parseM3U text).filterMap (fun c => truthy c.group))) ↔ _
    rw [hperm.mem_iff]
    unfold uniqueFirst
    rw [mem_uniqueFirstAux]
    simp only [List.mem_filterMap, List.not_mem_nil, not_false_iff, and_true]
    constructor
    · rintro ⟨c, hc, ht⟩
      exact ⟨c, hc, ((truthy_eq_some_iff c.group g).1 ht).1⟩
    · rintro ⟨c, hc, hg⟩
      refine ⟨c, hc, (truthy_eq_some_iff c.group g).2 ⟨hg, fun hge => ?_⟩⟩
      have hgroup := (mem_parseLinesAux none _ hc).2.1
      have hcontra : jsOr (lookupAttr c.attrs "group-title")
          (lookupAttr c.attrs "group") = some "" := by
        rw [← hgroup, hg, hge]
      exact jsOr_ne_some_empty _ _ hcontra

/-- Witness for C6: the lexicographic comparator on Example 1's text. -/
theorem computeGroups_spec_witness :
    (computeGroups strLe (parseM3U ex1Text)).head? = some "All" ∧
    (computeGroups strLe (parseM3U ex1Text)).tail.Pairwise
      (fun a b => a ≠ b ∧ strLe a b = true) ∧
    (∀ g, g ∈ (computeGroups strLe (parseM3U ex1Text)).tail ↔
      ∃ c ∈ parseM3U ex1Text, c.group = some g) :=
  computeGroups_spec strLe ex1Text strLe_trans strLe_total

/-! ## Claim C7 — attribute extraction on well-formed attribute lists -/

theorem scanAttrsAux_key_run : ∀ (ks : List Char),
    (∀ c ∈ ks, keyChar c = true) → ∀ (acc rest : List Char),
    scanAttrsAux (.key acc) (ks ++ rest) =
      scanAttrsAux (.key (ks.reverse ++ acc)) rest := by
  intro ks
  induction ks with
  | nil => intro _ acc rest; simp
  | cons c cs ih =>
    intro h acc rest
    have hc : keyChar c = true := h c (List.mem_cons_self c cs)
    rw [List.cons_append, scanAttrsAux, hc]
    show scanAttrsAux (.key (c :: acc)) (cs ++ rest) = _
    rw [ih (fun x hx => h x (List.mem_cons_of_mem c hx)) (c :: acc) rest]
    congr 1
    simp [List.append_assoc]

theorem scanAttrsAux_val_run : ∀ (vs : List Char), '"' ∉ vs →
    ∀ (ks acc rest : List Char),
    scanAttrsAux (.val ks acc) (vs ++ rest) =
      scanAttrsAux (.val ks (vs.reverse ++ acc)) rest := by
  intro vs
  induction vs with
  | nil => intro _ ks acc rest; simp
  | cons c cs ih =>
    intro h ks acc rest
    have hc : ¬c = '"' := fun h0 => h (h0 ▸ List.mem_cons_self c cs)
    rw [List.cons_append, scanAttrsAux, if_neg hc]
    rw [ih (fun h0 => h (List.mem_cons_of_mem c h0)) ks (c :: acc) rest]
    congr 1
    simp [List.append_assoc]

theorem scanAttrsAux_val_emit (ks vs rest : List Char) :
    scanAttrsAux (.val ks vs) ('"' :: rest) =
      (String.mk ks.reverse, String.mk vs.reverse) :: scanAttrsAux .seek rest := by
  rw [scanAttrsAux]
  rfl

theorem scanAttrs_renderPairs : ∀ (ps : List (String × String)),
    (∀ p ∈ ps, p.1.data ≠ [] ∧ ∀ ch ∈ p.1.data, keyChar ch = true) →
    (∀ p ∈ ps, '"' ∉ p.2.data) →
    scanAttrsAux .seek (renderPairs ps ++ ",Name".data) = ps := by
  intro ps
  induction ps with
  | nil => intro _ _; decide
  | cons p ps ih =>
    intro hk hv
    obtain ⟨k, v⟩ := p
    have hk0 := hk (k, v) (List.mem_cons_self _ _)
    have hkd : k.data ≠ [] := hk0.1
    have hkc : ∀ ch ∈ k.data, keyChar ch = true := hk0.2
    have hvq : '"' ∉ v.data := hv (k, v) (List.mem_cons_self _ _)
    have hshape : renderPairs ((k, v) :: ps) ++ ",Name".data =
        ' ' :: (k.data ++
          ('=' :: '"' :: (v.data ++ ('"' :: (renderPairs ps ++ ",Name".data))))) := by
      show (' ' :: (k.data ++ '=' :: '"' :: (v.data ++ '"' :: renderPairs ps)))
          ++ ",Name".data = _
      simp [List.append_assoc]
    rw [hshape]
    show scanAttrsAux .seek (k.data ++
      ('=' :: '"' :: (v.data ++ ('"' :: (renderPairs ps ++ ",Name".data))))) = _
    rcases hlist : k.data with _ | ⟨c, kd⟩
    · exact absurd hlist hkd
    · have hc : keyChar c = true := hkc c (by rw [hlist]; exact List.mem_cons_self _ _)
      have hkdc : ∀ x ∈ kd, keyChar x = true :=
        fun x hx => hkc x (by rw [hlist]; exact List.mem_cons_of_mem _ hx)
      rw [List.cons_append, scanAttrsAux, hc]
      show scanAttrsAux (.key [c])
        (kd ++ ('=' :: '"' :: (v.data ++ ('"' :: (renderPairs ps ++ ",Name".data))))) = _
      rw [scanAttrsAux_key_run kd hkdc [c] _]
      show scanAttrsAux (.val (kd.reverse ++ [c]) [])
        (v.data ++ ('"' :: (renderPairs ps ++ ",Name".data))) = _
      rw [scanAttrsAux_val_run v.data hvq (kd.reverse ++ [c]) [] _,
        scanAttrsAux_val_emit]
      rw [ih (fun q hq => hk q (List.mem_cons_of_mem _ hq))
        (fun q hq => hv q (List.mem_cons_of_mem _ hq))]
      have h1 : (kd.reverse ++ [c]).reverse = k.data := by
        rw [hlist]
        simp
      have h2 : (v.data.reverse ++ ([] : List Char)).reverse = v.data := by
        simp
      rw [h1, h2]

theorem lookupAttr_eq_getLast (ps : List (String × String)) (k : String) :
    lookupAttr ps k =
      ((ps.filter (fun p => p.1 = k)).getLast?).map Prod.snd := by
  induction ps using List.reverseRecOn with
  | nil => rfl
  | append_singleton l p ih =>
    unfold lookupAttr at ih ⊢
    rw [List.foldl_append, List.filter_append]
    simp only [List.foldl_cons, List.foldl_nil]
    by_cases hp : p.1 = k
    · rw [if_pos hp]
      have hf : List.filter (fun p => decide (p.1 = k)) [p] = [p] := by
        simp [hp]
      rw [hf, List.getLast?_concat]
      rfl
    · rw [if_neg hp]
      have hf : List.filter (fun p => decide (p.1 = k)) [p] = [] := by
        simp [hp]
      rw [hf, List.append_nil]
      exact ih

/-- Claim C7, confirmed: on a marker line carrying any well-formed attribute section
(non-empty keys over `[A-Za-z0-9_-]`, quote-free values), the extraction
recovers exactly the written pairs — each value is the exact text between
its quotes, with no escape processing — and looking a key up in the
resulting mapping yields the value of its *last* occurrence on the
line. -/
theorem attrExtraction_wellFormed (ps : List (String × String))
    (hk : ∀ p ∈ ps, p.1.data ≠ [] ∧ ∀ ch ∈ p.1.data, keyChar ch = true)
    (hv : ∀ p ∈ ps, '"' ∉ p.2.data) :
    extractAttrs (renderLine ps) = ps ∧
    (∀ k, lookupAttr (extractAttrs (renderLine ps)) k =
      ((ps.filter (fun p => p.1 = k)).getLast?).map Prod.snd) := by
  have hmain : extractAttrs (renderLine ps) = ps := by
    unfold extractAttrs renderLine
    cases ps with
    | nil => decide
    | cons q qs => exact scanAttrs_renderPairs (q :: qs) hk hv
  exact ⟨hmain, fun k => by rw [hmain, lookupAttr_eq_getLast]⟩

/-- Witness for C7 on a concrete attribute list with a duplicate key. -/
theorem attrExtraction_wellFormed_witness :
    ((∀ p ∈ attrPairsFixture, p.1.data ≠ [] ∧ ∀ ch ∈ p.1.data, keyChar ch = true) ∧
      (∀ p ∈ attrPairsFixture, '"' ∉ p.2.data)) ∧
    (extractAttrs (renderLine attrPairsFixture) = attrPairsFixture ∧
      (∀ k, lookupAttr (extractAttrs (renderLine attrPairsFixture)) k =
        ((attrPairsFixture.filter (fun p => p.1 = k)).getLast?).map Prod.snd)) :=
  ⟨⟨by decide, by decide⟩,
    attrExtraction_wellFormed attrPairsFixture (by decide) (by decide)⟩
